import Mathlib

/-!
Verification of the tuzu-home-scan session/risk-scoring core.

This file is a shallow embedding, in Lean 4, of the pure core of the
repository: the keyword-based risk scoring engine (`calculateRiskScore`,
`calculateOverallRiskScore` from the vision library), the LLM report
normalizer (`parseSecurityReport` and its validators from `src/lib/openai.ts`),
the in-memory session store (`createSession`, `getSession`,
`removeImageFromSession`, `cleanupExpiredSessions` from the session store
module), the result grouping (`groupImagesByParent`, `calculateGroupRisk`
from the results route) and the parent/child relation maintained by the
upload, relate, update and delete routes.

Modelling conventions:
- JavaScript numbers are modelled as rationals (`ℚ`); `Math.round` is
  floor of x + 1/2, which matches JS round-half-up semantics.
- JavaScript `string | undefined` fields are `Option String`; JS truthiness
  of such a field (`undefined` and `""` are falsy) is modelled explicitly.
- Times are naturals counting milliseconds; `new Date()` comparisons become
  arithmetic comparisons on those naturals.
- The session `Map` is modelled as a function `String → Option Session`.
- JSON values produced by the platform `JSON.parse` are modelled by the
  inductive `JSVal`; JS runtime coercions used by the normalizer
  (property access, truthiness, `String(..)`, `Number(..)`, `||`) are
  modelled by executable functions.  A thrown `TypeError` is modelled as
  `Option.none` bubbling to the `try/catch`.
-/

/-- JS `Math.round`: round half toward positive infinity. -/
def jsRound (q : ℚ) : ℤ := ⌊q + 1/2⌋

/-- `Math.round(q * 10) / 10`: round to one decimal, as the source does. -/
def round1 (q : ℚ) : ℚ := (jsRound (q * 10) : ℚ) / 10

/-- Lower-casing a string (model of JS `toLowerCase` for the ASCII captions
and tag names the engine works on). -/
def strLower (s : String) : String := ⟨s.data.map Char.toLower⟩

/-- `leadsWith needle hay`: `needle` is an initial segment of `hay`. -/
def leadsWith : List Char → List Char → Bool
  | [], _ => true
  | _ :: _, [] => false
  | a :: as, b :: bs => a = b && leadsWith as bs

/-- `hasSub needle hay`: `needle` occurs contiguously inside `hay`. -/
def hasSub (needle : List Char) : List Char → Bool
  | [] => leadsWith needle []
  | c :: t => leadsWith needle (c :: t) || hasSub needle t

/-- Model of JS `hay.includes(needle)` (substring test). -/
def strIncludes (hay needle : String) : Bool := hasSub needle.toList hay.toList

/-- JS `[...new Set(l)]`: deduplicate keeping the first occurrence. -/
def dedupFirst (seen : List String) : List String → List String
  | [] => []
  | a :: as => if a ∈ seen then dedupFirst seen as else a :: dedupFirst (a :: seen) as

/- ## Risk scoring engine (vision library) -/

structure Tag where
  name : String
  confidence : ℚ
deriving DecidableEq

structure DetectedObject where
  name : String
  confidence : ℚ
deriving DecidableEq

inductive RiskLevel where
  | high
  | medium
  | low
deriving DecidableEq

structure ImageAnalysis where
  tags : List Tag
  caption : String
  detectedObjects : List DetectedObject
  riskScore : ℚ
  riskLevel : RiskLevel
  riskNotes : List String
  recommendations : List String
deriving DecidableEq

def SECURITY_POSITIVE_KEYWORDS : List String :=
  ["lock", "deadbolt", "security", "reinforced", "metal", "steel",
   "alarm", "camera", "sensor", "bolt", "chain", "keypad",
   "smart lock", "double glazed", "tempered", "bars", "grille",
   "peephole", "intercom", "video doorbell", "motion sensor"]

def SECURITY_NEGATIVE_KEYWORDS : List String :=
  ["broken", "damaged", "crack", "rust", "old", "worn",
   "unlocked", "open", "gap", "hole", "weak", "rotted",
   "single pane", "flimsy", "loose"]

def VULNERABILITY_KEYWORDS : List String :=
  ["window", "door", "glass", "wooden", "sliding", "basement",
   "ground floor", "accessible", "low", "entry point"]

/-- The concatenated lower-cased text the engine scans:
`[caption, ...tag names, ...object names].join(' ')`. -/
def allTextOf (tags : List Tag) (caption : String) (objs : List DetectedObject) : String :=
  String.intercalate " "
    (strLower caption :: (tags.map (fun t => strLower t.name) ++ objs.map (fun o => strLower o.name)))

def foundPositives (text : String) : List String :=
  SECURITY_POSITIVE_KEYWORDS.filter (fun kw => strIncludes text kw)

def foundNegatives (text : String) : List String :=
  SECURITY_NEGATIVE_KEYWORDS.filter (fun kw => strIncludes text kw)

def foundVulnerabilities (text : String) : List String :=
  VULNERABILITY_KEYWORDS.filter (fun kw => strIncludes text kw)

/-- `calculateRiskScore` from the vision library: keyword scan, location
multiplier, clamp, classification, dedup.  Returned `azureResponse` is an
empty object in the source and is omitted here. -/
def calculateRiskScore (tags : List Tag) (caption : String)
    (detectedObjects : List DetectedObject) (locationRiskFactor : ℚ) : ImageAnalysis :=
  let allText := allTextOf tags caption detectedObjects
  let positives := foundPositives allText
  let negatives := foundNegatives allText
  let vulnerabilities := foundVulnerabilities allText
  let score1 : ℚ := if 0 < positives.length then 5 + positives.length * (1/2) else 5
  let notes1 : List String :=
    if 0 < positives.length then
      ["Security features detected: " ++ String.intercalate ", " positives]
    else []
  let score2 := if 0 < negatives.length then score1 - negatives.length * (7/10) else score1
  let notes2 := notes1 ++
    (if 0 < negatives.length then
      ["Potential issues detected: " ++ String.intercalate ", " negatives]
     else [])
  let recs1 : List String :=
    if 0 < negatives.length then ["Consider addressing the identified damage or wear issues"] else []
  let score3 := if 0 < vulnerabilities.length ∧ positives.length = 0 then score2 - 1 else score2
  let notes3 := notes2 ++
    (if 0 < vulnerabilities.length ∧ positives.length = 0 then
      ["Entry point detected without visible security features"]
     else [])
  let recs2 := recs1 ++
    (if 0 < vulnerabilities.length ∧ positives.length = 0 then
      ["Consider adding visible security measures to this entry point"]
     else [])
  let recs3 := recs2 ++
    (if strIncludes allText "window" && !strIncludes allText "lock" then
      ["Add window locks for enhanced security"]
     else [])
  let recs4 := recs3 ++
    (if strIncludes allText "door" && !strIncludes allText "deadbolt" then
      ["Consider installing a deadbolt for added door security"]
     else [])
  let recs5 := recs4 ++
    (if strIncludes allText "glass" && !strIncludes allText "tempered"
        && !strIncludes allText "reinforced" then
      ["Consider security film or reinforced glass for vulnerable windows"]
     else [])
  let recs6 := recs5 ++
    (if strIncludes allText "sliding" then
      ["Add a security bar or pin lock to sliding doors/windows"]
     else [])
  let located := score3 * locationRiskFactor
  let clamped : ℚ := max 1 (min 10 (round1 located))
  let riskLevel : RiskLevel :=
    if clamped ≤ 3 then .high else if clamped ≤ 6 then .medium else .low
  let riskNotes :=
    if notes3 = [] then
      ["Standard security assessment - no significant features or issues detected"]
    else notes3
  let recsFinal :=
    if notes3 = [] then
      recs6 ++ ["Consider a professional security assessment for detailed recommendations"]
    else recs6
  { tags := tags, caption := caption, detectedObjects := detectedObjects,
    riskScore := clamped, riskLevel := riskLevel,
    riskNotes := riskNotes, recommendations := dedupFirst [] recsFinal }

/-- Weights `{high: 2, medium: 1.5, low: 1}` used by both aggregators. -/
def levelWeight : RiskLevel → ℚ
  | .high => 2
  | .medium => 3/2
  | .low => 1

/-- One step of the aggregation loop: accumulates `(weightedSum, totalWeight)`. -/
def riskAccum (acc : ℚ × ℚ) (a : ImageAnalysis) : ℚ × ℚ :=
  (acc.1 + a.riskScore * levelWeight a.riskLevel, acc.2 + levelWeight a.riskLevel)

/-- `calculateOverallRiskScore` from the vision library. -/
def calculateOverallRiskScore (analyses : List ImageAnalysis) : ℚ :=
  if analyses.length = 0 then 5
  else
    let p := analyses.foldl riskAccum (0, 0)
    round1 (p.1 / p.2)

/-- Closed form of the loop's weighted sum (for stating the weighted-mean claim). -/
def weightedSum (analyses : List ImageAnalysis) : ℚ :=
  (analyses.map (fun a => a.riskScore * levelWeight a.riskLevel)).sum

/-- Closed form of the loop's total weight. -/
def totalWeight (analyses : List ImageAnalysis) : ℚ :=
  (analyses.map (fun a => levelWeight a.riskLevel)).sum

/- ## Report normalizer (`parseSecurityReport` and validators, openai library)

The platform `JSON.parse` produces a JSON value; `JSVal` models the JS values
the normalizer manipulates (including `undefined`, which `JSON.parse` never
produces but property access does).  Property access on `null`/`undefined`
and calling `.map` on a non-array throw `TypeError`; a throw is modelled as
`Option.none`, which the source's `try/catch` turns into the `null` result. -/

inductive JSVal where
  | undefined
  | null
  | bool (b : Bool)
  | num (q : ℚ)
  | str (s : String)
  | arr (elems : List JSVal)
  | obj (fields : List (String × JSVal))

/-- JS truthiness. -/
def jsTruthy : JSVal → Bool
  | .undefined => false
  | .null => false
  | .bool b => b
  | .num q => !(q == 0)
  | .str s => !(s == "")
  | .arr _ => true
  | .obj _ => true

/-- JS `a || b`. -/
def jsOr (a b : JSVal) : JSVal := if jsTruthy a then a else b

def lookupField : List (String × JSVal) → String → JSVal
  | [], _ => .undefined
  | (k, v) :: t, key => if k = key then v else lookupField t key

/-- JS property access `a.key`; `none` models a thrown `TypeError`.
Strings and arrays expose `length`; other primitives yield `undefined`. -/
def jsGet : JSVal → String → Option JSVal
  | .undefined, _ => none
  | .null, _ => none
  | .str s, key => some (if key = "length" then .num s.length else .undefined)
  | .arr l, key => some (if key = "length" then .num l.length else .undefined)
  | .obj fs, key => some (lookupField fs key)
  | .bool _, _ => some .undefined
  | .num _, _ => some .undefined

/-- JS optional chaining `a?.key`. -/
def jsGetOpt (v : JSVal) (key : String) : JSVal :=
  match v with
  | .undefined => .undefined
  | .null => .undefined
  | .str s => if key = "length" then .num s.length else .undefined
  | .arr l => if key = "length" then .num l.length else .undefined
  | .obj fs => lookupField fs key
  | .bool _ => .undefined
  | .num _ => .undefined

/-- Rendering of a JS number (JS decimal formatting abbreviated; no claim
depends on the text of a formatted number). -/
def ratToString (q : ℚ) : String :=
  if q.den = 1 then toString q.num else toString q.num ++ "/" ++ toString q.den

mutual

/-- JS `String(v)` coercion. -/
def jsToString : JSVal → String
  | .undefined => "undefined"
  | .null => "null"
  | .bool true => "true"
  | .bool false => "false"
  | .num q => ratToString q
  | .str s => s
  | .arr l => String.intercalate "," (jsJoinParts l)
  | .obj _ => "[object Object]"

/-- Parts of `Array.prototype.join`: `null`/`undefined` elements render empty. -/
def jsJoinParts : List JSVal → List String
  | [] => []
  | .undefined :: vs => "" :: jsJoinParts vs
  | .null :: vs => "" :: jsJoinParts vs
  | v :: vs => jsToString v :: jsJoinParts vs

end

def natOfDigits (cs : List Char) : ℕ :=
  cs.foldl (fun a c => a * 10 + (c.toNat - 48)) 0

/-- JS `Number(string)` for the decimal forms the normalizer can meet
(optional sign, digits, optional fraction); other forms are NaN (`none`).
The empty or all-space string converts to `0` as in JS. -/
def strToNum (s : String) : Option ℚ :=
  let cs := (s.data.filter (fun c => !(c = ' ' || c = '\t' || c = '\n' || c = '\r')))
  if s.data.all (fun c => c = ' ' || c = '\t' || c = '\n' || c = '\r') then some 0
  else
    let withSign : ℚ × List Char :=
      match cs with
      | '+' :: t => (1, t)
      | '-' :: t => (-1, t)
      | _ => (1, cs)
    let ip := withSign.2.takeWhile Char.isDigit
    let rest := withSign.2.dropWhile Char.isDigit
    match rest with
    | [] => if ip = [] then none else some (withSign.1 * natOfDigits ip)
    | '.' :: frac =>
      if frac.all Char.isDigit ∧ (ip ≠ [] ∨ frac ≠ []) then
        some (withSign.1 * (natOfDigits ip + natOfDigits frac / 10 ^ frac.length))
      else none
    | _ => none

/-- JS `Number(v)` coercion; `none` models NaN. Arrays and objects coerce
through their string form. -/
def jsToNumber : JSVal → Option ℚ
  | .undefined => none
  | .null => some 0
  | .bool b => some (if b then 1 else 0)
  | .num q => some q
  | .str s => strToNum s
  | .arr l => strToNum (jsToString (.arr l))
  | .obj fs => strToNum (jsToString (.obj fs))

inductive ExposureRisk where
  | veryLow
  | low
  | medium
  | high
  | veryHigh
deriving DecidableEq

inductive ConfidenceLevel where
  | high
  | medium
  | low
deriving DecidableEq

inductive EffortCostLevel where
  | low
  | medium
  | high
deriving DecidableEq

/-- `validateExposureRisk`: a string in the closed set maps to itself,
anything else maps to `Medium`. -/
def validateExposureRisk : JSVal → ExposureRisk
  | .str s =>
    if s = "Very Low" then .veryLow
    else if s = "Low" then .low
    else if s = "Medium" then .medium
    else if s = "High" then .high
    else if s = "Very High" then .veryHigh
    else .medium
  | _ => .medium

/-- `validateConfidence`. -/
def validateConfidence : JSVal → ConfidenceLevel
  | .str s =>
    if s = "High" then .high
    else if s = "Medium" then .medium
    else if s = "Low" then .low
    else .medium
  | _ => .medium

/-- `validateEffortCost`. -/
def validateEffortCost : JSVal → EffortCostLevel
  | .str s =>
    if s = "Low" then .low
    else if s = "Medium" then .medium
    else if s = "High" then .high
    else .medium
  | _ => .medium

structure ReportHeader where
  overallExposureRisk : ExposureRisk
  overallConfidence : ConfidenceLevel
  summary : JSVal
  date : JSVal
  areasAnalyzed : JSVal

structure AreaAnalysis where
  area : String
  exposureRisk : ExposureRisk
  confidence : ConfidenceLevel
  notes : String
  recommendation : String
  effort : EffortCostLevel
  cost : EffortCostLevel

structure PrioritizedRecommendation where
  recommendation : String
  effort : EffortCostLevel
  cost : EffortCostLevel
  priority : ℚ

structure SecurityReport where
  header : ReportHeader
  areas : List AreaAnalysis
  prioritizedRecommendations : List PrioritizedRecommendation
  conclusion : JSVal
  limitations : List JSVal

/-- The element list `.map` iterates over; `none` is the `TypeError` thrown
when the callee is not an array. -/
def jsElems : JSVal → Option (List JSVal)
  | .arr l => some l
  | _ => none

/-- The `areas` map callback: field accesses in the source's literal order;
accessing a field of a `null`/`undefined` element throws. -/
def mapAreaEntry (a : JSVal) : Option AreaAnalysis :=
  match jsGet a "area" with
  | none => none
  | some av =>
    match jsGet a "exposureRisk" with
    | none => none
    | some ev =>
      match jsGet a "confidence" with
      | none => none
      | some cv =>
        match jsGet a "notes" with
        | none => none
        | some nv =>
          match jsGet a "recommendation" with
          | none => none
          | some rv =>
            match jsGet a "effort" with
            | none => none
            | some fv =>
              match jsGet a "cost" with
              | none => none
              | some sv =>
                some { area := jsToString (jsOr av (.str "Unknown Area")),
                       exposureRisk := validateExposureRisk ev,
                       confidence := validateConfidence cv,
                       notes := jsToString (jsOr nv (.str "")),
                       recommendation := jsToString (jsOr rv (.str "")),
                       effort := validateEffortCost fv,
                       cost := validateEffortCost sv }

def mapAreas : List JSVal → Option (List AreaAnalysis)
  | [] => some []
  | a :: as =>
    match mapAreaEntry a with
    | none => none
    | some x =>
      match mapAreas as with
      | none => none
      | some xs => some (x :: xs)

/-- The `prioritizedRecommendations` map callback at 0-based index `i`:
`priority: Number(rec.priority) || index + 1`. -/
def mapRecEntry (i : ℕ) (r : JSVal) : Option PrioritizedRecommendation :=
  match jsGet r "recommendation" with
  | none => none
  | some rv =>
    match jsGet r "effort" with
    | none => none
    | some fv =>
      match jsGet r "cost" with
      | none => none
      | some cv =>
        match jsGet r "priority" with
        | none => none
        | some pv =>
          some { recommendation := jsToString (jsOr rv (.str "")),
                 effort := validateEffortCost fv,
                 cost := validateEffortCost cv,
                 priority :=
                   match jsToNumber pv with
                   | none => (i : ℚ) + 1
                   | some q => if q = 0 then (i : ℚ) + 1 else q }

def mapRecs (i : ℕ) : List JSVal → Option (List PrioritizedRecommendation)
  | [] => some []
  | r :: rs =>
    match mapRecEntry i r with
    | none => none
    | some x =>
      match mapRecs (i + 1) rs with
      | none => none
      | some xs => some (x :: xs)

/-- `parseSecurityReport` applied to an already-parsed JSON value.  `today`
is the string `new Date().toLocaleDateString('en-GB')` would produce; it is
only used as the default date.  The source's four `parsed.header?.…` accesses
are shared since they denote the same value.  `none` models the `null`
result of the source's `try/catch`. -/
def normalizeReport (today : String) (parsed : JSVal) : Option SecurityReport :=
  match jsGet parsed "header" with
  | none => none
  | some headerVal =>
    match jsGet parsed "areas" with
    | none => none
    | some areasVal =>
      match jsElems (jsOr areasVal (.arr [])) with
      | none => none
      | some areasList =>
        match mapAreas areasList with
        | none => none
        | some areas =>
          match jsGet parsed "prioritizedRecommendations" with
          | none => none
          | some recsVal =>
            match jsElems (jsOr recsVal (.arr [])) with
            | none => none
            | some recsList =>
              match mapRecs 0 recsList with
              | none => none
              | some recs =>
                match jsGet parsed "conclusion" with
                | none => none
                | some conclVal =>
                  match jsGet parsed "limitations" with
                  | none => none
                  | some limVal =>
                    some { header :=
                             { overallExposureRisk :=
                                 validateExposureRisk (jsGetOpt headerVal "overallExposureRisk"),
                               overallConfidence :=
                                 validateConfidence (jsGetOpt headerVal "overallConfidence"),
                               summary :=
                                 jsOr (jsGetOpt headerVal "summary")
                                   (.str "Security assessment completed."),
                               date := jsOr (jsGetOpt headerVal "date") (.str today),
                               areasAnalyzed := jsOr (jsGetOpt areasVal "length") (.num 0) },
                           areas := areas,
                           prioritizedRecommendations := recs,
                           conclusion := jsOr conclVal (.str "Assessment complete."),
                           limitations :=
                             match limVal with
                             | .arr l => l
                             | _ => [] }

/- ## Session store and images -/

inductive AnalysisStatus where
  | pending
  | analyzing
  | complete
  | error
deriving DecidableEq

/-- An uploaded image.  Storage paths, filename and upload time are carried
by the source record but touched by no claim; the fields the store, the
grouping and the parent/child relation read are kept. -/
structure Image where
  id : String
  parentImageId : Option String
  analysisStatus : AnalysisStatus
  analysis : Option ImageAnalysis
deriving DecidableEq

/-- JS falsiness of a `string | undefined` field: `undefined` and `""`. -/
def optFalsy : Option String → Bool
  | none => true
  | some s => s == ""

structure Session where
  id : String
  createdAt : ℕ
  expiresAt : ℕ
  images : List Image
  analysisStatus : AnalysisStatus
  securityReport : Option SecurityReport

/-- The in-memory session map. -/
def Store := String → Option Session

def storeSet (st : Store) (id : String) (s : Session) : Store :=
  fun x => if x = id then some s else st x

def storeDel (st : Store) (id : String) : Store :=
  fun x => if x = id then none else st x

/-- `SESSION_EXPIRY_HOURS` defaults to 24; in milliseconds. -/
def SESSION_EXPIRY_MS : ℕ := 24 * 60 * 60 * 1000

/-- `cleanupExpiredSessions`: drop every session with `now > expiresAt`. -/
def cleanupExpiredSessions (now : ℕ) (st : Store) : Store :=
  fun x =>
    match st x with
    | none => none
    | some s => if s.expiresAt < now then none else some s

/-- `createSession`: build a fresh session, store it, then run the cleanup
pass the source triggers on every create. -/
def createSession (now : ℕ) (id : String) (st : Store) : Session × Store :=
  let s : Session :=
    { id := id, createdAt := now, expiresAt := now + SESSION_EXPIRY_MS,
      images := [], analysisStatus := .pending, securityReport := none }
  (s, cleanupExpiredSessions now (storeSet st id s))

/-- `getSession`: lazy-evicting read; `now > expiresAt` deletes and returns
not-found. -/
def getSession (now : ℕ) (st : Store) (id : String) : Option Session × Store :=
  match st id with
  | none => (none, st)
  | some s => if s.expiresAt < now then (none, storeDel st id) else (some s, st)

/-- The session-create route: return an existing (non-expired) session
unchanged, otherwise create one. -/
def sessionCreatePOST (now : ℕ) (id : String) (st : Store) : Session × Store :=
  match getSession now st id with
  | (some s, st1) => (s, st1)
  | (none, st1) => createSession now id st1

/-- `removeImageFromSession`: drop the named image, then drop every image
whose `parentImageId` equals the removed id (the source's two filter
passes), and write the session back. -/
def removeImageFromSession (now : ℕ) (sessionId imageId : String) (st : Store) :
    Option Session × Store :=
  match getSession now st sessionId with
  | (none, st1) => (none, st1)
  | (some s, st1) =>
    let imgs1 := s.images.filter (fun img => !(img.id == imageId))
    let imgs2 := imgs1.filter (fun img => !(img.parentImageId == some imageId))
    let s2 := { s with images := imgs2 }
    (some s2, storeSet st1 sessionId s2)

/- ## Image grouping (results route) -/

structure GroupedResults where
  primaryImage : Image
  relatedImages : List Image
  combinedRiskScore : ℚ
  combinedRiskLevel : RiskLevel

/-- `calculateGroupRisk`: weighted mean over the analyses present in the
group, `(5, medium)` when none. -/
def calculateGroupRisk (images : List Image) : ℚ × RiskLevel :=
  let analyses := images.filterMap (fun img => img.analysis)
  if analyses.length = 0 then (5, .medium)
  else
    let p := analyses.foldl riskAccum (0, 0)
    let s := round1 (p.1 / p.2)
    (s, if s ≤ 3 then .high else if s ≤ 6 then .medium else .low)

/-- The primaries: images whose `parentImageId` is JS-falsy. -/
def primariesOf (images : List Image) : List Image :=
  images.filter (fun img => optFalsy img.parentImageId)

/-- The related images of a primary: `parentImageId === primary.id`. -/
def relatedOf (images : List Image) (primary : Image) : List Image :=
  images.filter (fun img => img.parentImageId == some primary.id)

/-- The ids collected in `processedIds` after the primaries loop. -/
def processedIdsOf (images : List Image) : List String :=
  (primariesOf images).map Image.id ++
    ((primariesOf images).flatMap (fun p => (relatedOf images p).map Image.id))

/-- The orphans: truthy `parentImageId` and not processed. -/
def orphansOf (images : List Image) : List Image :=
  images.filter (fun img => !optFalsy img.parentImageId
    && !((processedIdsOf images).contains img.id))

/-- `groupImagesByParent`: one group per primary (with its related images)
followed by one singleton group per orphan. -/
def groupImagesByParent (images : List Image) : List GroupedResults :=
  (primariesOf images).map (fun p =>
    let related := relatedOf images p
    let risk := calculateGroupRisk (p :: related)
    { primaryImage := p, relatedImages := related,
      combinedRiskScore := risk.1, combinedRiskLevel := risk.2 }) ++
  (orphansOf images).map (fun o =>
    let risk := calculateGroupRisk [o]
    { primaryImage := o, relatedImages := [],
      combinedRiskScore := risk.1, combinedRiskLevel := risk.2 })

/-- All images of a group, primary first. -/
def groupMembers (g : GroupedResults) : List Image :=
  g.primaryImage :: g.relatedImages

/-- All images of all groups. -/
def flattenGroups (gs : List GroupedResults) : List Image :=
  gs.flatMap groupMembers

/- ## Public operations on a session's image list (upload, relate, update, delete)

The parent/child invariant is a property of one session's image list, so the
operations are modelled at that level; the store plumbing around them
(session lookup, expiry) is orthogonal to the invariant. -/

/-- The upload route's `parentImageId || undefined`: an empty string is
stored as `undefined`. -/
def jsOrUndef : Option String → Option String
  | some "" => none
  | x => x

/-- `MAX_IMAGES_PER_SESSION` default. -/
def MAX_IMAGES_PER_SESSION : ℕ := 30

/-- The upload route: cap check, then append a pending image whose
`parentImageId` is taken from the form data unvalidated. -/
def uploadStep (images : List Image) (newId : String) (parentRaw : Option String) : List Image :=
  if MAX_IMAGES_PER_SESSION ≤ images.length then images
  else images ++ [{ id := newId, parentImageId := jsOrUndef parentRaw,
                    analysisStatus := .pending, analysis := none }]

/-- `updateImageInSession` specialised to setting `parentImageId` (the relate
route's update): the first image with the given id is rewritten. -/
def setParentFirst : List Image → String → String → List Image
  | [], _, _ => []
  | img :: rest, imageId, pid =>
    if img.id = imageId then { img with parentImageId := some pid } :: rest
    else img :: setParentFirst rest imageId pid

/-- The relate route: reject a falsy `parentImageId`, a missing child or
parent, a self link, or a parent that is itself a child; otherwise set the
child's `parentImageId`.  A rejected request leaves the session unchanged. -/
def relateStep (images : List Image) (imageId parentId : String) : List Image :=
  if parentId = "" then images
  else
    match images.find? (fun img => img.id == imageId) with
    | none => images
    | some _ =>
      match images.find? (fun img => img.id == parentId) with
      | none => images
      | some parent =>
        if imageId = parentId then images
        else if !optFalsy parent.parentImageId then images
        else setParentFirst images imageId parentId

/-- `updateImageInSession` as the analysis pipeline uses it: rewrite the
first matching image's status and analysis, leaving id and parent alone. -/
def setAnalysisFirst : List Image → String → AnalysisStatus → Option ImageAnalysis → List Image
  | [], _, _, _ => []
  | img :: rest, imageId, st, an =>
    if img.id = imageId then { img with analysisStatus := st, analysis := an } :: rest
    else img :: setAnalysisFirst rest imageId st an

/-- The delete route's cascade (the image-list part of
`removeImageFromSession`). -/
def removeStep (images : List Image) (imageId : String) : List Image :=
  (images.filter (fun img => !(img.id == imageId))).filter
    (fun img => !(img.parentImageId == some imageId))

/-- A public operation on a session's image list. -/
inductive SessionOp where
  | upload (newId : String) (parentRaw : Option String)
  | relate (imageId parentId : String)
  | updateImg (imageId : String) (st : AnalysisStatus) (an : Option ImageAnalysis)
  | removeImg (imageId : String)

def stepOp (images : List Image) : SessionOp → List Image
  | .upload newId parentRaw => uploadStep images newId parentRaw
  | .relate imageId parentId => relateStep images imageId parentId
  | .updateImg imageId st an => setAnalysisFirst images imageId st an
  | .removeImg imageId => removeStep images imageId

def runOps (images : List Image) : List SessionOp → List Image
  | [] => images
  | op :: ops => runOps (stepOp images op) ops

/-- The spec's parent/child invariant: chains have depth at most one (a
child is never itself a parent) and no image references itself. -/
def DepthLeOne (images : List Image) : Prop :=
  (∀ i ∈ images, ∀ j ∈ images, i.parentImageId = some j.id → j.parentImageId = none) ∧
  (∀ i ∈ images, i.parentImageId ≠ some i.id)

/-- Inductive strengthening: ids are distinct uuids (nonempty, no
duplicates) and every referenced parent exists and is a primary. -/
def GoodImages (images : List Image) : Prop :=
  (images.map Image.id).Nodup ∧
  (∀ i ∈ images, i.id ≠ "") ∧
  (∀ i ∈ images, ∀ pid, i.parentImageId = some pid →
    ∃ j ∈ images, j.id = pid ∧ j.parentImageId = none)

/-- The side conditions under which an operation respects the invariant:
uploads carry a fresh nonempty uuid and name no parent or an existing
primary; relate is applied to an image that has no children of its own. -/
def GoodOp (images : List Image) : SessionOp → Prop
  | .upload newId parentRaw =>
    newId ∉ images.map Image.id ∧ newId ≠ "" ∧
      (jsOrUndef parentRaw = none ∨
        ∃ p ∈ images, jsOrUndef parentRaw = some p.id ∧ p.parentImageId = none)
  | .relate imageId _ => ∀ i ∈ images, i.parentImageId ≠ some imageId
  | .updateImg _ _ _ => True
  | .removeImg _ => True

def GoodSeq : List Image → List SessionOp → Prop
  | _, [] => True
  | images, op :: ops => GoodOp images op ∧ GoodSeq (stepOp images op) ops

/- ## Helper lemmas -/

theorem mem_dedupFirst {x : String} : ∀ {seen l : List String},
    x ∈ dedupFirst seen l → x ∈ l ∧ x ∉ seen := by
  intro seen l
  induction l generalizing seen with
  | nil => intro h; simp [dedupFirst] at h
  | cons a as ih =>
    intro h
    simp only [dedupFirst] at h
    by_cases ha : a ∈ seen
    · simp [ha] at h
      rcases ih h with ⟨h1, h2⟩
      exact ⟨List.mem_cons_of_mem _ h1, h2⟩
    · simp [ha] at h
      rcases h with h | h
      · subst h; exact ⟨List.mem_cons_self _ _, ha⟩
      · rcases ih h with ⟨h1, h2⟩
        simp at h2
        exact ⟨List.mem_cons_of_mem _ h1, h2.2⟩

theorem dedupFirst_nodup : ∀ (seen l : List String), (dedupFirst seen l).Nodup := by
  intro seen l
  induction l generalizing seen with
  | nil => simp [dedupFirst]
  | cons a as ih =>
    simp only [dedupFirst]
    by_cases ha : a ∈ seen
    · simp [ha]; exact ih seen
    · simp [ha]
      refine ⟨?_, ih (a :: seen)⟩
      intro hmem
      have := mem_dedupFirst hmem
      simp at this

/-- C1: for every input, `calculateRiskScore` returns a risk score in
[1, 10], a risk level consistent with the thresholds (score ≤ 3 → high,
≤ 6 → medium, > 6 → low), and duplicate-free recommendations. -/
theorem calculateRiskScore_output_contract (tags : List Tag) (caption : String)
    (objs : List DetectedObject) (locationRiskFactor : ℚ) :
    1 ≤ (calculateRiskScore tags caption objs locationRiskFactor).riskScore ∧
    (calculateRiskScore tags caption objs locationRiskFactor).riskScore ≤ 10 ∧
    (calculateRiskScore tags caption objs locationRiskFactor).riskLevel =
      (if (calculateRiskScore tags caption objs locationRiskFactor).riskScore ≤ 3 then .high
       else if (calculateRiskScore tags caption objs locationRiskFactor).riskScore ≤ 6 then .medium
       else .low) ∧
    (calculateRiskScore tags caption objs locationRiskFactor).recommendations.Nodup := by
  simp only [calculateRiskScore]
  refine ⟨le_max_left _ _, ?_, trivial, dedupFirst_nodup _ _⟩
  exact max_le (by norm_num) (le_trans (min_le_left _ _) (by norm_num))

/-- C8 counterexample: on the caption "steel security door with deadbolt and
camera" the engine finds five positive keywords (not three: `bolt` matches
inside `deadbolt`, and `security` and `steel` both match), so the score is
5 + 5·0.5 = 7.5, not 6.5. -/
theorem example2_counterexample :
    ¬ ((foundPositives (allTextOf [] "steel security door with deadbolt and camera" [])).length = 3 ∧
       (calculateRiskScore [] "steel security door with deadbolt and camera" [] 1).riskScore = 13/2) := by
  intro h
  have h5 : (foundPositives (allTextOf [] "steel security door with deadbolt and camera" [])).length = 5 := by
    decide
  rw [h5] at h
  exact absurd h.1 (by decide)

/-- C8 amended: the caption "steel security door with deadbolt and camera"
yields exactly five positive matches (deadbolt, security, steel, camera,
bolt — substring search), score 5 + 2.5 = 7.5 in the low band, a single
general note listing the five matches and no generic fallback note (and no
recommendation at all). -/
theorem example2_amended :
    foundPositives (allTextOf [] "steel security door with deadbolt and camera" []) =
      ["deadbolt", "security", "steel", "camera", "bolt"] ∧
    (calculateRiskScore [] "steel security door with deadbolt and camera" [] 1).riskScore = 15/2 ∧
    (calculateRiskScore [] "steel security door with deadbolt and camera" [] 1).riskLevel = .low ∧
    (calculateRiskScore [] "steel security door with deadbolt and camera" [] 1).riskNotes =
      ["Security features detected: deadbolt, security, steel, camera, bolt"] ∧
    (calculateRiskScore [] "steel security door with deadbolt and camera" [] 1).recommendations = [] := by
  have hp : foundPositives (allTextOf [] "steel security door with deadbolt and camera" []) =
      ["deadbolt", "security", "steel", "camera", "bolt"] := by decide
  have hn : foundNegatives (allTextOf [] "steel security door with deadbolt and camera" []) = [] := by decide
  have hv : foundVulnerabilities (allTextOf [] "steel security door with deadbolt and camera" []) = ["door"] := by decide
  have hw : strIncludes (allTextOf [] "steel security door with deadbolt and camera" []) "window" = false := by decide
  have hd : strIncludes (allTextOf [] "steel security door with deadbolt and camera" []) "deadbolt" = true := by decide
  have hg : strIncludes (allTextOf [] "steel security door with deadbolt and camera" []) "glass" = false := by decide
  have hs : strIncludes (allTextOf [] "steel security door with deadbolt and camera" []) "sliding" = false := by decide
  refine ⟨hp, ?_, ?_, ?_, ?_⟩
  · simp [calculateRiskScore, hp, hn, hv, hw, hd, hg, hs, round1, jsRound]
    norm_num [Int.floor_eq_iff]
  · simp [calculateRiskScore, hp, hn, hv, hw, hd, hg, hs, round1, jsRound]
    norm_num [Int.floor_eq_iff]
  · decide
  · decide

/-- C10: the risk notes are never empty (a generic note is substituted when
none was generated), but the recommendations can be empty: with at least
one positive keyword, no negative keyword, and none of the four targeted
rules firing, no recommendation is emitted, because the generic fallback
recommendation is tied to the notes being empty, not the recommendations. -/
theorem riskNotes_nonempty_recommendations_can_be_empty :
    (∀ (tags : List Tag) (caption : String) (objs : List DetectedObject) (f : ℚ),
      (calculateRiskScore tags caption objs f).riskNotes ≠ []) ∧
    (calculateRiskScore [] "camera" [] 1).recommendations = [] ∧
    (∀ (tags : List Tag) (caption : String) (objs : List DetectedObject) (f : ℚ),
      foundPositives (allTextOf tags caption objs) ≠ [] →
      foundNegatives (allTextOf tags caption objs) = [] →
      (strIncludes (allTextOf tags caption objs) "window"
        && !strIncludes (allTextOf tags caption objs) "lock") = false →
      (strIncludes (allTextOf tags caption objs) "door"
        && !strIncludes (allTextOf tags caption objs) "deadbolt") = false →
      (strIncludes (allTextOf tags caption objs) "glass"
        && !strIncludes (allTextOf tags caption objs) "tempered"
        && !strIncludes (allTextOf tags caption objs) "reinforced") = false →
      strIncludes (allTextOf tags caption objs) "sliding" = false →
      (calculateRiskScore tags caption objs f).recommendations = []) := by
  have notesNE : ∀ (l : List String),
      (if l = []
        then ["Standard security assessment - no significant features or issues detected"]
        else l) ≠ [] := by
    intro l
    split
    · simp
    · assumption
  refine ⟨?_, by decide, ?_⟩
  · intro tags caption objs f
    simp only [calculateRiskScore]
    exact notesNE _
  · intro tags caption objs f hp hn hw hd hg hs
    have hl : 0 < (foundPositives (allTextOf tags caption objs)).length :=
      List.length_pos.mpr hp
    simp [calculateRiskScore, hl, hl.ne', hn, hw, hd, hg, hs, dedupFirst]

/-- C10 witness: concrete instance of the conditional part at the caption
"camera". -/
theorem riskNotes_nonempty_recommendations_can_be_empty_witness :
    (calculateRiskScore [] "camera" [] 1).recommendations = [] ∧
    (calculateRiskScore [] "camera" [] 1).riskNotes ≠ [] :=
  ⟨riskNotes_nonempty_recommendations_can_be_empty.2.2 [] "camera" [] 1
      (by decide) (by decide) (by decide) (by decide) (by decide) (by decide),
    riskNotes_nonempty_recommendations_can_be_empty.1 [] "camera" [] 1⟩

theorem foldl_riskAccum (l : List ImageAnalysis) (p : ℚ × ℚ) :
    l.foldl riskAccum p = (p.1 + weightedSum l, p.2 + totalWeight l) := by
  induction l generalizing p with
  | nil => simp [weightedSum, totalWeight]
  | cons a as ih =>
    simp only [List.foldl_cons, ih, riskAccum, weightedSum, totalWeight,
      List.map_cons, List.sum_cons, Prod.mk.injEq]
    exact ⟨by ring, by ring⟩

/-- C7: the aggregate score is the weighted mean with level weights
{high: 2, medium: 1.5, low: 1} rounded to one decimal, 5 when there are no
analyses; the per-group score is computed by the same algorithm, so
`calculateGroupRisk` and `calculateOverallRiskScore` agree on every list;
and the documented instance (high at 2, low at 9) rounds 13/3 to 4.3. -/
theorem overallRiskScore_weighted_mean :
    calculateOverallRiskScore [] = 5 ∧
    (∀ analyses : List ImageAnalysis, analyses ≠ [] →
      calculateOverallRiskScore analyses =
        round1 (weightedSum analyses / totalWeight analyses)) ∧
    (∀ images : List Image,
      (calculateGroupRisk images).1 =
        calculateOverallRiskScore (images.filterMap Image.analysis)) ∧
    calculateOverallRiskScore
      [{ tags := [], caption := "", detectedObjects := [], riskScore := 2,
         riskLevel := .high, riskNotes := [], recommendations := [] },
       { tags := [], caption := "", detectedObjects := [], riskScore := 9,
         riskLevel := .low, riskNotes := [], recommendations := [] }] = 43/10 := by
  have hgen : ∀ analyses : List ImageAnalysis, analyses ≠ [] →
      calculateOverallRiskScore analyses =
        round1 (weightedSum analyses / totalWeight analyses) := by
    intro l hl
    simp [calculateOverallRiskScore, List.length_eq_zero, hl, foldl_riskAccum]
  refine ⟨by simp [calculateOverallRiskScore], hgen, ?_, ?_⟩
  · intro images
    by_cases h : (images.filterMap Image.analysis).length = 0
    · simp [calculateGroupRisk, calculateOverallRiskScore, h]
    · simp [calculateGroupRisk, calculateOverallRiskScore, h]
  · rw [hgen _ (by simp)]
    have hws : weightedSum
        [{ tags := [], caption := "", detectedObjects := [], riskScore := 2,
           riskLevel := .high, riskNotes := [], recommendations := [] },
         { tags := [], caption := "", detectedObjects := [], riskScore := 9,
           riskLevel := .low, riskNotes := [], recommendations := [] }] = 13 := by
      simp [weightedSum, levelWeight]
      norm_num
    have htw : totalWeight
        [{ tags := [], caption := "", detectedObjects := [], riskScore := 2,
           riskLevel := .high, riskNotes := [], recommendations := [] },
         { tags := [], caption := "", detectedObjects := [], riskScore := 9,
           riskLevel := .low, riskNotes := [], recommendations := [] }] = 3 := by
      simp [totalWeight, levelWeight]
      norm_num
    rw [hws, htw]
    have h43 : jsRound (13 / 3 * 10) = 43 := by
      rw [jsRound, Int.floor_eq_iff]
      norm_num
    rw [round1, h43]
    norm_num

/-- C7 witness: the weighted-mean form instantiated at a concrete singleton
list. -/
theorem overallRiskScore_weighted_mean_witness :
    calculateOverallRiskScore
      [{ tags := [], caption := "", detectedObjects := [], riskScore := 2,
         riskLevel := .high, riskNotes := [], recommendations := [] }] =
      round1 (weightedSum
        [{ tags := [], caption := "", detectedObjects := [], riskScore := 2,
           riskLevel := .high, riskNotes := [], recommendations := [] }] /
        totalWeight
        [{ tags := [], caption := "", detectedObjects := [], riskScore := 2,
           riskLevel := .high, riskNotes := [], recommendations := [] }]) :=
  overallRiskScore_weighted_mean.2.1 _ (by simp)

/-- C6: `getSession` returns the stored session exactly when
`now ≤ expiresAt` and otherwise evicts it and returns not-found; with the
default 24h TTL a session created at `T` and read at `T + 25h` is
not-found and evicted; and the background sweep evicts under the same
expiry test as the read path. -/
theorem getSession_expiry_spec :
    (∀ (st : Store) (now : ℕ) (id : String) (s : Session), st id = some s →
      (now ≤ s.expiresAt → getSession now st id = (some s, st)) ∧
      (s.expiresAt < now → getSession now st id = (none, storeDel st id))) ∧
    (∀ (st : Store) (id : String) (T : ℕ),
      (createSession T id st).1.createdAt = T ∧
      getSession (T + 25 * 60 * 60 * 1000) (createSession T id st).2 id =
        (none, storeDel (createSession T id st).2 id)) ∧
    (∀ (st : Store) (now : ℕ) (id : String) (s : Session), st id = some s →
      (cleanupExpiredSessions now st id = none ↔ (getSession now st id).1 = none)) := by
  refine ⟨?_, ?_, ?_⟩
  · intro st now id s hst
    constructor
    · intro hle
      simp [getSession, hst, Nat.not_lt.mpr hle]
    · intro hlt
      simp [getSession, hst, hlt]
  · intro st id T
    refine ⟨rfl, ?_⟩
    have hnl : ¬ (T + SESSION_EXPIRY_MS < T) := by simp [SESSION_EXPIRY_MS]
    have hlt : T + SESSION_EXPIRY_MS < T + 25 * 60 * 60 * 1000 := by
      simp [SESSION_EXPIRY_MS]
    simp [createSession, cleanupExpiredSessions, storeSet, getSession, hnl, hlt]
  · intro st now id s hst
    by_cases hc : s.expiresAt < now
    · simp [cleanupExpiredSessions, getSession, hst, hc]
    · simp [cleanupExpiredSessions, getSession, hst, hc]

/-- C6 witness: the read path applied to a concrete unexpired session. -/
theorem getSession_expiry_spec_witness :
    getSession 5 (fun x => if x = "s1" then some
      { id := "s1", createdAt := 0, expiresAt := 10, images := [],
        analysisStatus := .pending, securityReport := none } else none) "s1" =
      (some { id := "s1", createdAt := 0, expiresAt := 10, images := [],
              analysisStatus := .pending, securityReport := none },
       fun x => if x = "s1" then some
        { id := "s1", createdAt := 0, expiresAt := 10, images := [],
          analysisStatus := .pending, securityReport := none } else none) :=
  (getSession_expiry_spec.1 _ 5 "s1" _ (by simp)).1 (by norm_num)

/-- C9: when a session with the requested id already exists and is not
expired, the create route returns that session unchanged — its `createdAt`,
`expiresAt`, `images`, `analysisStatus` and report are not reset — and the
store is untouched. -/
theorem sessionCreate_idempotent (now : ℕ) (id : String) (st : Store) (s : Session)
    (hst : st id = some s) (hle : now ≤ s.expiresAt) :
    sessionCreatePOST now id st = (s, st) ∧
    (sessionCreatePOST now id st).1.createdAt = s.createdAt ∧
    (sessionCreatePOST now id st).1.expiresAt = s.expiresAt ∧
    (sessionCreatePOST now id st).1.images = s.images ∧
    (sessionCreatePOST now id st).1.analysisStatus = s.analysisStatus ∧
    (sessionCreatePOST now id st).1.securityReport = s.securityReport := by
  have h : sessionCreatePOST now id st = (s, st) := by
    simp [sessionCreatePOST, getSession, hst, Nat.not_lt.mpr hle]
  exact ⟨h, by rw [h], by rw [h], by rw [h], by rw [h], by rw [h]⟩

/-- C9 witness: a concrete stored, unexpired session is returned unchanged. -/
theorem sessionCreate_idempotent_witness :
    sessionCreatePOST 7 "s2" (fun x => if x = "s2" then some
      { id := "s2", createdAt := 1, expiresAt := 99, images := [],
        analysisStatus := .complete, securityReport := none } else none) =
      ({ id := "s2", createdAt := 1, expiresAt := 99, images := [],
         analysisStatus := .complete, securityReport := none },
       fun x => if x = "s2" then some
        { id := "s2", createdAt := 1, expiresAt := 99, images := [],
          analysisStatus := .complete, securityReport := none } else none) :=
  (sessionCreate_idempotent 7 "s2" _ _ (by simp) (by norm_num)).1

/-- C4: on a non-expired session, `removeImageFromSession` keeps exactly the
images that are neither the named image nor a direct child of it (a single
cascade pass, not recursive); hence every direct child is removed with it,
anything unrelated is kept, and removing a child keeps its primary and its
siblings. -/
theorem removeImage_cascade (now : ℕ) (st : Store) (sid iid : String) (s : Session)
    (hst : st sid = some s) (hle : now ≤ s.expiresAt) :
    ∃ s2 : Session,
      removeImageFromSession now sid iid st = (some s2, storeSet st sid s2) ∧
      (∀ i : Image, i ∈ s2.images ↔
        (i ∈ s.images ∧ i.id ≠ iid ∧ i.parentImageId ≠ some iid)) ∧
      (∀ c ∈ s.images, c.id = iid ∨ c.parentImageId = some iid → c ∉ s2.images) ∧
      (∀ g ∈ s.images, g.id ≠ iid → g.parentImageId ≠ some iid → g ∈ s2.images) ∧
      (∀ c ∈ s.images, c.id = iid → ∀ pid, c.parentImageId = some pid → pid ≠ iid →
        (∀ p ∈ s.images, p.id = pid → p.parentImageId = none → p ∈ s2.images) ∧
        (∀ b ∈ s.images, b.parentImageId = some pid → b.id ≠ iid → b ∈ s2.images)) := by
  refine ⟨{ s with images := ((s.images.filter (fun img => !(img.id == iid))).filter (fun img => !(img.parentImageId == some iid))) }, ?_, ?_, ?_, ?_, ?_⟩
  · simp [removeImageFromSession, getSession, hst, Nat.not_lt.mpr hle]
  · intro i
    simp only [List.mem_filter, Bool.not_eq_eq_eq_not, Bool.not_true, beq_eq_false_iff_ne,
      ne_eq]
    tauto
  · intro c hc hor hmem
    simp [List.mem_filter] at hmem
    rcases hor with h | h
    · exact hmem.2.2 h
    · exact hmem.2.1 h
  · intro g hg h1 h2
    simp [List.mem_filter, h1, h2]
    exact hg
  · intro c hc hcid pid hpid hne
    constructor
    · intro p hp hpid2 hpnone
      simp [List.mem_filter, hpnone]
      refine ⟨hp, ?_⟩
      intro h; exact hne (hpid2 ▸ h)
    · intro b hb hbp hbid
      simp [List.mem_filter, hbp, hbid]
      exact ⟨hb, hne⟩

/-- C4 witness: the cascade applied to a concrete session holding a primary
with two children and an unrelated primary. -/
theorem removeImage_cascade_witness :
    ∃ s2 : Session,
      removeImageFromSession 0 "s" "a"
        (fun x => if x = "s" then some
          { id := "s", createdAt := 0, expiresAt := 9, images :=
              [{ id := "a", parentImageId := none, analysisStatus := .pending, analysis := none },
               { id := "b", parentImageId := some "a", analysisStatus := .pending, analysis := none },
               { id := "c", parentImageId := some "a", analysisStatus := .pending, analysis := none },
               { id := "d", parentImageId := none, analysisStatus := .pending, analysis := none }],
            analysisStatus := .pending, securityReport := none } else none) =
        (some s2, storeSet
          (fun x => if x = "s" then some
            { id := "s", createdAt := 0, expiresAt := 9, images :=
                [{ id := "a", parentImageId := none, analysisStatus := .pending, analysis := none },
                 { id := "b", parentImageId := some "a", analysisStatus := .pending, analysis := none },
                 { id := "c", parentImageId := some "a", analysisStatus := .pending, analysis := none },
                 { id := "d", parentImageId := none, analysisStatus := .pending, analysis := none }],
              analysisStatus := .pending, securityReport := none } else none) "s" s2) ∧
      (∀ i : Image, i ∈ s2.images ↔
        (i ∈ [{ id := "a", parentImageId := none, analysisStatus := .pending, analysis := none },
              { id := "b", parentImageId := some "a", analysisStatus := .pending, analysis := none },
              { id := "c", parentImageId := some "a", analysisStatus := .pending, analysis := none },
              { id := "d", parentImageId := none, analysisStatus := .pending,
                analysis := none }] ∧ i.id ≠ "a" ∧ i.parentImageId ≠ some "a")) := by
  obtain ⟨s2, h1, h2, hrest⟩ := removeImage_cascade 0
    (fun x => if x = "s" then some
      { id := "s", createdAt := 0, expiresAt := 9, images :=
          [{ id := "a", parentImageId := none, analysisStatus := .pending, analysis := none },
           { id := "b", parentImageId := some "a", analysisStatus := .pending, analysis := none },
           { id := "c", parentImageId := some "a", analysisStatus := .pending, analysis := none },
           { id := "d", parentImageId := none, analysisStatus := .pending, analysis := none }],
        analysisStatus := .pending, securityReport := none } else none)
    "s" "a"
    { id := "s", createdAt := 0, expiresAt := 9, images :=
        [{ id := "a", parentImageId := none, analysisStatus := .pending, analysis := none },
         { id := "b", parentImageId := some "a", analysisStatus := .pending, analysis := none },
         { id := "c", parentImageId := some "a", analysisStatus := .pending, analysis := none },
         { id := "d", parentImageId := none, analysisStatus := .pending, analysis := none }],
      analysisStatus := .pending, securityReport := none }
    (by simp) (by norm_num)
  exact ⟨s2, h1, h2⟩

theorem mapAreas_length : ∀ {l : List JSVal} {ar : List AreaAnalysis},
    mapAreas l = some ar → ar.length = l.length := by
  intro l
  induction l with
  | nil => intro ar h; simp [mapAreas] at h; simp [← h]
  | cons a as ih =>
    intro ar h
    simp only [mapAreas] at h
    rcases h1 : mapAreaEntry a with _ | x
    · rw [h1] at h; exact Option.noConfusion h
    · rw [h1] at h
      rcases h2 : mapAreas as with _ | xs
      · rw [h2] at h; exact Option.noConfusion h
      · rw [h2] at h
        rw [Option.some.injEq] at h
        subst h
        simp [ih h2]

theorem areasAnalyzed_eq (av : JSVal) (al : List JSVal)
    (hel : jsElems (jsOr av (.arr [])) = some al) :
    jsOr (jsGetOpt av "length") (.num 0) = .num al.length := by
  cases av with
  | undefined => simp [jsOr, jsTruthy, jsElems] at hel; simp [jsGetOpt, jsOr, jsTruthy, hel]
  | null => simp [jsOr, jsTruthy, jsElems] at hel; simp [jsGetOpt, jsOr, jsTruthy, hel]
  | bool b =>
    cases b with
    | false => simp [jsOr, jsTruthy, jsElems] at hel; simp [jsGetOpt, jsOr, jsTruthy, hel]
    | true => simp [jsOr, jsTruthy, jsElems] at hel
  | num q =>
    by_cases hq : q = 0
    · subst hq
      simp [jsOr, jsTruthy, jsElems] at hel
      simp [jsGetOpt, jsOr, jsTruthy, hel]
    · simp [jsOr, jsTruthy, hq, jsElems] at hel
  | str s =>
    by_cases hs : s = ""
    · subst hs
      simp [jsOr, jsTruthy, jsElems] at hel
      simp [jsGetOpt, jsOr, jsTruthy, hel]
    · simp [jsOr, jsTruthy, hs, jsElems] at hel
  | arr l =>
    simp [jsOr, jsTruthy, jsElems] at hel
    subst hel
    by_cases hl : l.length = 0
    · simp [jsGetOpt, jsOr, jsTruthy, Nat.cast_eq_zero, hl]
    · simp [jsGetOpt, jsOr, jsTruthy, Nat.cast_eq_zero, hl]
  | obj fs => simp [jsOr, jsTruthy, jsElems] at hel

/-- C2 counterexample: a brace span declaring `areas` to be the string
`"x"` parses as JSON (an object whose `areas` field is truthy but not an
array), yet the
normalizer returns the no-report result: `(parsed.areas || []).map`
throws a `TypeError`, which the catch converts to `null`.  So "null exactly
when no brace span parses as JSON" fails. -/
theorem parseSecurityReport_null_counterexample :
    normalizeReport "01/01/2025" (.obj [("areas", .str "x")]) = none := by
  rfl

/-- C2 amended: the normalizer returns the no-report result when the brace
span is missing or unparsable, and also when normalization hits a JS type
error (a truthy non-array `areas`/`prioritizedRecommendations`, or a
`null`/`undefined` element); every returned report has
`areasAnalyzed = len(areas)` regardless of the model's value, `limitations`
defaulted to `[]` when not an array, recommendations produced elementwise
with `priority` defaulting to the 1-based position when absent or
non-numeric, and every enumerated field validated with default `Medium` for
unrecognized or missing values. -/
theorem parseSecurityReport_normalization_amended (today : String) (v : JSVal) (r : SecurityReport)
    (h : normalizeReport today v = some r) :
    r.header.areasAnalyzed = .num r.areas.length ∧
    (∀ lv, jsGet v "limitations" = some lv → (∀ l, lv ≠ .arr l) → r.limitations = []) ∧
    (∃ l : List JSVal, mapRecs 0 l = some r.prioritizedRecommendations) ∧
    (∀ (i : ℕ) (x : JSVal) (pr : PrioritizedRecommendation), mapRecEntry i x = some pr →
      ∀ pv, jsGet x "priority" = some pv → jsToNumber pv = none → pr.priority = i + 1) ∧
    (∀ w : JSVal, (∀ s : String, w = .str s →
        s ∉ (["Very Low", "Low", "Medium", "High", "Very High"] : List String)) →
      validateExposureRisk w = .medium) ∧
    (∀ w : JSVal, (∀ s : String, w = .str s → s ∉ (["High", "Medium", "Low"] : List String)) →
      validateConfidence w = .medium) ∧
    (∀ w : JSVal, (∀ s : String, w = .str s → s ∉ (["Low", "Medium", "High"] : List String)) →
      validateEffortCost w = .medium) := by
  simp only [normalizeReport] at h
  split at h
  · exact Option.noConfusion h
  next headerVal hheader =>
  split at h
  · exact Option.noConfusion h
  next areasVal hareas =>
  split at h
  · exact Option.noConfusion h
  next areasList helems =>
  split at h
  · exact Option.noConfusion h
  next areas hmapAreas =>
  split at h
  · exact Option.noConfusion h
  next recsVal hrecsVal =>
  split at h
  · exact Option.noConfusion h
  next recsList helemsR =>
  split at h
  · exact Option.noConfusion h
  next recs hmapRecs =>
  split at h
  · exact Option.noConfusion h
  next conclVal hconcl =>
  split at h
  · exact Option.noConfusion h
  next limVal hlim =>
  rw [Option.some.injEq] at h
  subst h
  refine ⟨?_, ?_, ?_, ?_, ?_, ?_, ?_⟩
  · have h1 := areasAnalyzed_eq areasVal areasList helems
    have h2 := mapAreas_length hmapAreas
    simpa [h2] using h1
  · intro lv hlv hnotarr
    rw [hlim, Option.some.injEq] at hlv
    subst hlv
    cases limVal with
    | arr l => exact absurd rfl (hnotarr l)
    | undefined => rfl
    | null => rfl
    | bool b => rfl
    | num q => rfl
    | str s => rfl
    | obj fs => rfl
  · exact ⟨recsList, hmapRecs⟩
  · intro i x pr hpr pv hpv hnan
    simp only [mapRecEntry] at hpr
    split at hpr
    · exact Option.noConfusion hpr
    next rv hrv =>
    split at hpr
    · exact Option.noConfusion hpr
    next fv hfv =>
    split at hpr
    · exact Option.noConfusion hpr
    next cv hcv =>
    split at hpr
    · exact Option.noConfusion hpr
    next pv2 hpv2 =>
    rw [hpv2, Option.some.injEq] at hpv
    subst hpv
    rw [Option.some.injEq] at hpr
    subst hpr
    simp [hnan]
  · intro w hw
    cases w with
    | str s =>
      have h1 : s ≠ "Very Low" := fun hh => hw s rfl (by simp [hh])
      have h2 : s ≠ "Low" := fun hh => hw s rfl (by simp [hh])
      have h3 : s ≠ "Medium" := fun hh => hw s rfl (by simp [hh])
      have h4 : s ≠ "High" := fun hh => hw s rfl (by simp [hh])
      have h5 : s ≠ "Very High" := fun hh => hw s rfl (by simp [hh])
      simp [validateExposureRisk, h1, h2, h3, h4, h5]
    | undefined => rfl
    | null => rfl
    | bool b => rfl
    | num q => rfl
    | arr l => rfl
    | obj fs => rfl
  · intro w hw
    cases w with
    | str s =>
      have h1 : s ≠ "High" := fun hh => hw s rfl (by simp [hh])
      have h2 : s ≠ "Medium" := fun hh => hw s rfl (by simp [hh])
      have h3 : s ≠ "Low" := fun hh => hw s rfl (by simp [hh])
      simp [validateConfidence, h1, h2, h3]
    | undefined => rfl
    | null => rfl
    | bool b => rfl
    | num q => rfl
    | arr l => rfl
    | obj fs => rfl
  · intro w hw
    cases w with
    | str s =>
      have h1 : s ≠ "Low" := fun hh => hw s rfl (by simp [hh])
      have h2 : s ≠ "Medium" := fun hh => hw s rfl (by simp [hh])
      have h3 : s ≠ "High" := fun hh => hw s rfl (by simp [hh])
      simp [validateEffortCost, h1, h2, h3]
    | undefined => rfl
    | null => rfl
    | bool b => rfl
    | num q => rfl
    | arr l => rfl
    | obj fs => rfl

/-- C2 witness: the amended theorem applied to a concrete parsed object. -/
theorem parseSecurityReport_normalization_amended_witness :
    normalizeReport "x"
      (.obj [("prioritizedRecommendations", .arr [.obj []]), ("limitations", .str "no")]) =
      some { header := { overallExposureRisk := .medium, overallConfidence := .medium,
                         summary := .str "Security assessment completed.", date := .str "x",
                         areasAnalyzed := .num 0 },
             areas := [],
             prioritizedRecommendations :=
               [{ recommendation := "", effort := .medium, cost := .medium, priority := 1 }],
             conclusion := .str "Assessment complete.", limitations := [] } ∧
    ({ header := { overallExposureRisk := .medium, overallConfidence := .medium,
                   summary := .str "Security assessment completed.", date := .str "x",
                   areasAnalyzed := .num 0 },
       areas := [],
       prioritizedRecommendations :=
         [{ recommendation := "", effort := .medium, cost := .medium, priority := 1 }],
       conclusion := .str "Assessment complete.",
       limitations := [] } : SecurityReport).limitations = [] := by
  have h : normalizeReport "x"
      (.obj [("prioritizedRecommendations", .arr [.obj []]), ("limitations", .str "no")]) =
      some { header := { overallExposureRisk := .medium, overallConfidence := .medium,
                         summary := .str "Security assessment completed.", date := .str "x",
                         areasAnalyzed := .num 0 },
             areas := [],
             prioritizedRecommendations :=
               [{ recommendation := "", effort := .medium, cost := .medium, priority := 1 }],
             conclusion := .str "Assessment complete.", limitations := [] } := by
    simp [normalizeReport, jsGet, lookupField, jsOr, jsTruthy, jsGetOpt, jsElems,
      mapAreas, mapRecs, mapRecEntry, jsToNumber, jsToString,
      validateExposureRisk, validateConfidence, validateEffortCost]
  refine ⟨h, ?_⟩
  exact (parseSecurityReport_normalization_amended "x" _ _ h).2.1 (.str "no") rfl (fun l hl => by cases hl)

theorem flatMap_cons_perm (l : List Image) (g : Image → List Image) :
    (l.flatMap (fun x => x :: g x)).Perm (l ++ l.flatMap g) := by
  induction l with
  | nil => simp
  | cons a as ih =>
    simp only [List.flatMap_cons, List.cons_append]
    refine List.Perm.cons a ((List.Perm.append_left _ ih).trans ?_)
    rw [← List.append_assoc, ← List.append_assoc]
    exact List.Perm.append_right _ List.perm_append_comm

theorem filter_disjoint_perm {α : Type} (l : List α) (p q : α → Bool)
    (h : ∀ x ∈ l, ¬(p x = true ∧ q x = true)) :
    (l.filter p ++ l.filter q).Perm (l.filter (fun x => p x || q x)) := by
  induction l with
  | nil => simp
  | cons a as ih =>
    have hd := h a (List.mem_cons_self a as)
    have ih' := ih (fun x hx => h x (List.mem_cons_of_mem _ hx))
    by_cases hp : p a = true
    · have hq : ¬ q a = true := fun hq => hd ⟨hp, hq⟩
      have hor : (p a || q a) = true := by simp [hp]
      simp only [List.filter_cons, if_pos hp, if_neg hq, if_pos hor, List.cons_append]
      exact List.Perm.cons a ih'
    · by_cases hq : q a = true
      · have hor : (p a || q a) = true := by simp [hq]
        simp only [List.filter_cons, if_neg hp, if_pos hq, if_pos hor]
        exact List.perm_middle.trans (List.Perm.cons a ih')
      · have hor : ¬ (p a || q a) = true := by simp [hp, hq]
        simp only [List.filter_cons, if_neg hp, if_neg hq, if_neg hor]
        exact ih'

theorem flatMap_related_perm (images : List Image) :
    ∀ ps : List Image, (ps.map Image.id).Nodup →
      (ps.flatMap (fun p => images.filter (fun i => i.parentImageId == some p.id))).Perm
        (images.filter (fun i => (ps.map (fun p => some p.id)).contains i.parentImageId)) := by
  intro ps
  induction ps with
  | nil => simp
  | cons p ps ih =>
    intro hnd
    have hnd' : (ps.map Image.id).Nodup := (List.nodup_cons.mp (by simpa using hnd)).2
    have hpid : p.id ∉ ps.map Image.id := (List.nodup_cons.mp (by simpa using hnd)).1
    have hdisj : ∀ i ∈ images,
        ¬((i.parentImageId == some p.id) = true ∧
          ((ps.map (fun r => some r.id)).contains i.parentImageId) = true) := by
      intro i _ ⟨h1, h2⟩
      rw [beq_iff_eq] at h1
      simp only [List.contains_iff_exists_mem_beq] at h2
      rcases h2 with ⟨y, hy, hbeq⟩
      rw [h1, beq_iff_eq] at hbeq
      rcases List.mem_map.mp hy with ⟨r, hr, hrid⟩
      rw [← hrid, Option.some.injEq] at hbeq
      exact hpid (hbeq ▸ List.mem_map_of_mem Image.id hr)
    simp only [List.flatMap_cons, List.map_cons]
    refine ((List.Perm.append_left _ (ih hnd')).trans
      ((filter_disjoint_perm images _ _ hdisj).trans ?_))
    have heq : images.filter
        (fun i => ((some p.id :: ps.map (fun r => some r.id)).contains i.parentImageId)) =
        images.filter (fun i => (i.parentImageId == some p.id)
          || (ps.map (fun r => some r.id)).contains i.parentImageId) :=
      List.filter_congr (fun x _ => by rw [List.contains_cons])
    rw [heq]

theorem mem_processedIds (images : List Image) (hnodup : (images.map Image.id).Nodup)
    {x : Image} (hx : x ∈ images) :
    x.id ∈ processedIdsOf images ↔
      (x.parentImageId ∈ (primariesOf images).map (fun p => some p.id) ∨
       (x ∈ primariesOf images)) := by
  constructor
  · intro h
    rcases List.mem_append.mp h with h | h
    · rcases List.mem_map.mp h with ⟨p, hp, hpid⟩
      have hpim : p ∈ images := (List.mem_filter.mp hp).1
      have hpx : p = x := List.inj_on_of_nodup_map hnodup hpim hx hpid
      exact Or.inr (hpx ▸ hp)
    · rcases List.mem_flatMap.mp h with ⟨p, hp, hrid⟩
      rcases List.mem_map.mp hrid with ⟨r, hr, hrid2⟩
      have hrim : r ∈ images := (List.mem_filter.mp hr).1
      have hrx : r = x := List.inj_on_of_nodup_map hnodup hrim hx hrid2
      have hcond := (List.mem_filter.mp hr).2
      rw [hrx, beq_iff_eq] at hcond
      exact Or.inl (hcond ▸ List.mem_map_of_mem (fun p => some p.id) hp)
  · intro h
    rcases h with h | h
    · rcases List.mem_map.mp h with ⟨p, hp, hpid⟩
      refine List.mem_append.mpr (Or.inr ?_)
      refine List.mem_flatMap.mpr ⟨p, hp, ?_⟩
      refine List.mem_map_of_mem Image.id ?_
      refine List.mem_filter.mpr ⟨hx, ?_⟩
      rw [beq_iff_eq, ← hpid]
    · exact List.mem_append.mpr (Or.inl (List.mem_map_of_mem Image.id h))

/-- C3 amended: for image lists with pairwise-distinct ids and no
empty-string `parentImageId` (both guaranteed for sessions built by the
API, whose ids are uuids and whose upload route stores an empty parent as
`undefined`), `groupImagesByParent` is a partition: the concatenation of
all groups is a permutation of the image list (no image dropped or
duplicated), each primary heads its own group with exactly its related
images, each image whose parent is a primary's id is a related image of
that group, and each image whose parent refers to no primary is its own
singleton group. -/
theorem groupImagesByParent_partition (images : List Image)
    (hnodup : (images.map Image.id).Nodup)
    (hnoempty : ∀ i ∈ images, i.parentImageId ≠ some "") :
    (flattenGroups (groupImagesByParent images)).Perm images ∧
    (∀ i ∈ images, i.parentImageId = none →
      ∃ g ∈ groupImagesByParent images, g.primaryImage = i ∧
        g.relatedImages = relatedOf images i) ∧
    (∀ i ∈ images, ∀ pid, i.parentImageId = some pid →
      ∀ p ∈ images, p.id = pid → p.parentImageId = none →
      ∃ g ∈ groupImagesByParent images, g.primaryImage = p ∧ i ∈ g.relatedImages) ∧
    (∀ i ∈ images, ∀ pid, i.parentImageId = some pid →
      (∀ p ∈ images, p.id = pid → p.parentImageId ≠ none) →
      ∃ g ∈ groupImagesByParent images, g.primaryImage = i ∧ g.relatedImages = []) := by
  have hfalsy : ∀ i ∈ images, (optFalsy i.parentImageId = true ↔ i.parentImageId = none) := by
    intro i hi
    cases hpar : i.parentImageId with
    | none => simp [optFalsy]
    | some s =>
      have : s ≠ "" := fun hs => hnoempty i hi (by rw [hpar, hs])
      simp [optFalsy, this]
  have hprimnodup : ((primariesOf images).map Image.id).Nodup :=
    List.Nodup.sublist (List.Sublist.map Image.id (List.filter_sublist images)) hnodup
  have hflat : flattenGroups (groupImagesByParent images) =
      (primariesOf images).flatMap (fun p => p :: relatedOf images p) ++ orphansOf images := by
    simp only [flattenGroups, groupImagesByParent, List.flatMap_append, List.flatMap_map]
    simp [groupMembers]
  refine ⟨?_, ?_, ?_, ?_⟩
  · rw [hflat]
    refine (List.Perm.append_right _ (flatMap_cons_perm _ _)).trans ?_
    rw [List.append_assoc]
    refine (List.Perm.append_left _ ?_).trans
      (List.filter_append_perm (fun i => optFalsy i.parentImageId) images)
    refine (List.Perm.append_right _ (flatMap_related_perm images _ hprimnodup)).trans ?_
    have hcont_falsy : ∀ x ∈ images,
        (((primariesOf images).map (fun p => some p.id)).contains x.parentImageId) = true →
        optFalsy x.parentImageId = false := by
      intro x hx hc
      simp only [List.contains_iff_exists_mem_beq] at hc
      rcases hc with ⟨y, hy, hbeq⟩
      rcases List.mem_map.mp hy with ⟨p, hp, hpid⟩
      rw [← hpid, beq_iff_eq] at hbeq
      rw [hbeq]
      have hpne : p.id ≠ "" := by
        intro hpe
        exact hnoempty x hx (by rw [hbeq, hpe])
      simp [optFalsy, hpne]
    have hcontains_eq : images.filter
        (fun i => ((primariesOf images).map (fun p => some p.id)).contains i.parentImageId) =
        images.filter (fun i => !optFalsy i.parentImageId &&
          ((primariesOf images).map (fun p => some p.id)).contains i.parentImageId) := by
      apply List.filter_congr
      intro x hx
      cases hc : (((primariesOf images).map (fun p => some p.id)).contains x.parentImageId) with
      | false => simp
      | true => simp [hcont_falsy x hx hc]
    have horph_eq : orphansOf images =
        images.filter (fun i => !optFalsy i.parentImageId &&
          !(((primariesOf images).map (fun p => some p.id)).contains i.parentImageId)) := by
      apply List.filter_congr
      intro x hx
      cases hf : optFalsy x.parentImageId with
      | true => simp [hf]
      | false =>
        simp only [Bool.not_false, Bool.true_and]
        rw [Bool.eq_iff_iff]
        simp only [Bool.not_eq_true']
        rw [← Bool.not_eq_true, ← Bool.not_eq_true]
        constructor
        · intro h1 h2
          apply h1
          rw [show ((processedIdsOf images).contains x.id = true) ↔
            x.id ∈ processedIdsOf images by simp]
          refine (mem_processedIds images hnodup hx).mpr (Or.inl ?_)
          rw [show (((primariesOf images).map (fun p => some p.id)).contains
            x.parentImageId = true) ↔
            x.parentImageId ∈ (primariesOf images).map (fun p => some p.id) by simp] at h2
          exact h2
        · intro h1 h2
          apply h1
          rw [show ((processedIdsOf images).contains x.id = true) ↔
            x.id ∈ processedIdsOf images by simp] at h2
          rcases (mem_processedIds images hnodup hx).mp h2 with h | h
          · rw [show (((primariesOf images).map (fun p => some p.id)).contains
              x.parentImageId = true) ↔
              x.parentImageId ∈ (primariesOf images).map (fun p => some p.id) by simp]
            exact h
          · have := (List.mem_filter.mp h).2
            rw [this] at hf
            exact Bool.noConfusion hf
    rw [hcontains_eq, horph_eq]
    refine (filter_disjoint_perm _ _ _ ?_).trans ?_
    · intro x hx ⟨h1, h2⟩
      simp only [Bool.and_eq_true] at h1 h2
      rw [h1.2] at h2
      exact Bool.noConfusion h2.2
    · have : images.filter (fun x =>
          (!optFalsy x.parentImageId &&
            ((primariesOf images).map (fun p => some p.id)).contains x.parentImageId) ||
          (!optFalsy x.parentImageId &&
            !(((primariesOf images).map (fun p => some p.id)).contains x.parentImageId))) =
          images.filter (fun x => !optFalsy x.parentImageId) := by
        apply List.filter_congr
        intro x hx
        cases optFalsy x.parentImageId <;>
          cases ((primariesOf images).map (fun p => some p.id)).contains x.parentImageId <;> rfl
      rw [this]
  · intro i hi hpar
    have hip : i ∈ primariesOf images :=
      List.mem_filter.mpr ⟨hi, by rw [hpar]; rfl⟩
    refine ⟨_, List.mem_append_left _ (List.mem_map_of_mem _ hip), rfl, rfl⟩
  · intro i hi pid hpar p hp hpid hpnone
    have hpprim : p ∈ primariesOf images :=
      List.mem_filter.mpr ⟨hp, by rw [hpnone]; rfl⟩
    refine ⟨_, List.mem_append_left _ (List.mem_map_of_mem _ hpprim), rfl, ?_⟩
    show i ∈ relatedOf images p
    refine List.mem_filter.mpr ⟨hi, ?_⟩
    rw [hpar, hpid, beq_iff_eq]
  · intro i hi pid hpar hnoprim
    have hif : optFalsy i.parentImageId = false := by
      rw [hpar]
      have : pid ≠ "" := fun hpe => hnoempty i hi (by rw [hpar, hpe])
      simp [optFalsy, this]
    have hiorph : i ∈ orphansOf images := by
      refine List.mem_filter.mpr ⟨hi, ?_⟩
      rw [Bool.and_eq_true]
      refine ⟨by rw [hif]; rfl, ?_⟩
      rw [Bool.not_eq_true', ← Bool.not_eq_true]
      intro hcont
      rw [show ((processedIdsOf images).contains i.id = true) ↔
        i.id ∈ processedIdsOf images by simp] at hcont
      rcases (mem_processedIds images hnodup hi).mp hcont with h | h
      · rcases List.mem_map.mp h with ⟨p, hpprim, hppid⟩
        have hpim : p ∈ images := (List.mem_filter.mp hpprim).1
        have hpfalsy := (List.mem_filter.mp hpprim).2
        have hpnone : p.parentImageId = none := (hfalsy p hpim).mp hpfalsy
        rw [hpar, Option.some.injEq] at hppid
        exact hnoprim p hpim hppid hpnone
      · have hc := (List.mem_filter.mp h).2
        rw [hif] at hc
        exact Bool.noConfusion hc
    refine ⟨_, List.mem_append_right _ (List.mem_map_of_mem _ hiorph), rfl, rfl⟩

/-- C3 counterexample: with an (exotic) empty-string id and an image whose
`parentImageId` is the empty string, JS falsiness makes the child count as
a primary AND as a related image of the empty-id primary, so it appears in
two groups: the claim's "every image appears exactly once" fails for a list
with pairwise-distinct ids. -/
theorem groupImagesByParent_counterexample :
    (([⟨"", none, .pending, none⟩, ⟨"c", some "", .pending, none⟩] : List Image).map
      Image.id).Nodup ∧
    ¬ (flattenGroups (groupImagesByParent
        [⟨"", none, .pending, none⟩, ⟨"c", some "", .pending, none⟩])).Perm
      [⟨"", none, .pending, none⟩, ⟨"c", some "", .pending, none⟩] := by
  refine ⟨by decide, fun hperm => ?_⟩
  have hle := hperm.length_eq
  have hlen : (flattenGroups (groupImagesByParent
      ([⟨"", none, .pending, none⟩, ⟨"c", some "", .pending, none⟩] : List Image))).length = 3 :=
    rfl
  rw [hlen] at hle
  exact absurd hle (by decide)

/-- C3 witness: the partition property on a concrete list with a primary,
a related image and an orphan. -/
theorem groupImagesByParent_partition_witness :
    (flattenGroups (groupImagesByParent
      ([⟨"a", none, .pending, none⟩, ⟨"b", some "a", .pending, none⟩,
        ⟨"x", some "zz", .pending, none⟩] : List Image))).Perm
      [⟨"a", none, .pending, none⟩, ⟨"b", some "a", .pending, none⟩,
       ⟨"x", some "zz", .pending, none⟩] :=
  (groupImagesByParent_partition _ (by decide) (by decide)).1

theorem setParentFirst_map_id (l : List Image) (a p : String) :
    (setParentFirst l a p).map Image.id = l.map Image.id := by
  induction l with
  | nil => rfl
  | cons i rest ih =>
    simp only [setParentFirst]
    by_cases h : i.id = a
    · simp [h]
    · simp [h, ih]

theorem mem_setParentFirst {l : List Image} {a p : String} {x : Image}
    (hx : x ∈ setParentFirst l a p) :
    x ∈ l ∨ ∃ c ∈ l, c.id = a ∧ x = { c with parentImageId := some p } := by
  induction l with
  | nil => simp [setParentFirst] at hx
  | cons i rest ih =>
    simp only [setParentFirst] at hx
    by_cases h : i.id = a
    · rw [if_pos h] at hx
      rcases List.mem_cons.mp hx with h2 | h2
      · exact Or.inr ⟨i, List.mem_cons_self i rest, h, h2⟩
      · exact Or.inl (List.mem_cons_of_mem _ h2)
    · rw [if_neg h] at hx
      rcases List.mem_cons.mp hx with h2 | h2
      · exact Or.inl (h2 ▸ List.mem_cons_self i rest)
      · rcases ih h2 with h3 | ⟨c, hc, hca, hcx⟩
        · exact Or.inl (List.mem_cons_of_mem _ h3)
        · exact Or.inr ⟨c, List.mem_cons_of_mem _ hc, hca, hcx⟩

theorem mem_setParentFirst_of_ne {l : List Image} {a p : String} {j : Image}
    (hj : j ∈ l) (hne : j.id ≠ a) : j ∈ setParentFirst l a p := by
  induction l with
  | nil => simp at hj
  | cons i rest ih =>
    simp only [setParentFirst]
    by_cases h : i.id = a
    · rw [if_pos h]
      rcases List.mem_cons.mp hj with h2 | h2
      · exact absurd (h2 ▸ h) hne
      · exact List.mem_cons_of_mem _ h2
    · rw [if_neg h]
      rcases List.mem_cons.mp hj with h2 | h2
      · rw [h2]; exact List.mem_cons_self i _
      · exact List.mem_cons_of_mem _ (ih h2)

theorem setAnalysisFirst_map_pair (l : List Image) (a : String) (st : AnalysisStatus)
    (an : Option ImageAnalysis) :
    (setAnalysisFirst l a st an).map (fun i => (i.id, i.parentImageId)) =
      l.map (fun i => (i.id, i.parentImageId)) := by
  induction l with
  | nil => rfl
  | cons i rest ih =>
    simp only [setAnalysisFirst]
    by_cases h : i.id = a
    · simp [h]
    · simp [h, ih]

theorem goodImages_congr {l l' : List Image}
    (h : l.map (fun i => (i.id, i.parentImageId)) = l'.map (fun i => (i.id, i.parentImageId)))
    (hg : GoodImages l) : GoodImages l' := by
  obtain ⟨hnd, hne, href⟩ := hg
  have hid : l'.map Image.id = l.map Image.id := by
    have h1 : l.map Image.id = (l.map (fun i => (i.id, i.parentImageId))).map Prod.fst := by
      rw [List.map_map]; rfl
    have h2 : l'.map Image.id = (l'.map (fun i => (i.id, i.parentImageId))).map Prod.fst := by
      rw [List.map_map]; rfl
    rw [h1, h2, h]
  refine ⟨hid ▸ hnd, ?_, ?_⟩
  · intro i hi
    have : (i.id, i.parentImageId) ∈ l'.map (fun i => (i.id, i.parentImageId)) :=
      List.mem_map_of_mem _ hi
    rw [← h] at this
    rcases List.mem_map.mp this with ⟨i0, hi0, heq⟩
    have : i0.id = i.id := congrArg Prod.fst heq
    exact this ▸ hne i0 hi0
  · intro i hi pid hpid
    have hmem : (i.id, i.parentImageId) ∈ l'.map (fun i => (i.id, i.parentImageId)) :=
      List.mem_map_of_mem _ hi
    rw [← h] at hmem
    rcases List.mem_map.mp hmem with ⟨i0, hi0, heq⟩
    have hpar0 : i0.parentImageId = i.parentImageId := congrArg Prod.snd heq
    rcases href i0 hi0 pid (by rw [hpar0, hpid]) with ⟨j, hj, hjid, hjnone⟩
    have hjmem : (j.id, j.parentImageId) ∈ l.map (fun i => (i.id, i.parentImageId)) :=
      List.mem_map_of_mem _ hj
    rw [h] at hjmem
    rcases List.mem_map.mp hjmem with ⟨j', hj', heq'⟩
    simp only [Prod.mk.injEq] at heq'
    exact ⟨j', hj', heq'.1.trans hjid, heq'.2.trans hjnone⟩

theorem goodImages_nil : GoodImages [] := by
  refine ⟨List.nodup_nil, ?_, ?_⟩ <;> intro i hi <;> simp at hi

theorem goodImages_depthLeOne {images : List Image} (hg : GoodImages images) :
    DepthLeOne images := by
  obtain ⟨hnd, hne, href⟩ := hg
  constructor
  · intro i hi j hj hij
    rcases href i hi j.id hij with ⟨k, hk, hkid, hknone⟩
    have : k = j := List.inj_on_of_nodup_map hnd hk hj hkid
    exact this ▸ hknone
  · intro i hi hself
    rcases href i hi i.id hself with ⟨k, hk, hkid, hknone⟩
    have : k = i := List.inj_on_of_nodup_map hnd hk hi hkid
    rw [this] at hknone
    rw [hknone] at hself
    exact Option.noConfusion hself

theorem goodImages_upload {images : List Image} {newId : String} {parentRaw : Option String}
    (hg : GoodImages images) (hop : GoodOp images (.upload newId parentRaw)) :
    GoodImages (uploadStep images newId parentRaw) := by
  obtain ⟨hnd, hne, href⟩ := hg
  obtain ⟨hfresh, hne2, hpar⟩ := hop
  unfold uploadStep
  by_cases hcap : MAX_IMAGES_PER_SESSION ≤ images.length
  · rw [if_pos hcap]; exact ⟨hnd, hne, href⟩
  · rw [if_neg hcap]
    refine ⟨?_, ?_, ?_⟩
    · rw [List.map_append]
      rw [List.nodup_append]
      refine ⟨hnd, List.nodup_singleton _, ?_⟩
      intro a ha hb
      simp only [List.map_cons, List.map_nil, List.mem_singleton] at hb
      exact hfresh (hb ▸ ha)
    · intro i hi
      rcases List.mem_append.mp hi with h | h
      · exact hne i h
      · rw [List.mem_singleton] at h
        rw [h]
        exact hne2
    · intro i hi pid hpid
      rcases List.mem_append.mp hi with h | h
      · rcases href i h pid hpid with ⟨j, hj, hjid, hjnone⟩
        exact ⟨j, List.mem_append_left _ hj, hjid, hjnone⟩
      · rw [List.mem_singleton] at h
        subst h
        simp only at hpid
        rcases hpar with h | ⟨p, hp, hpeq, hpnone⟩
        · rw [h] at hpid; exact Option.noConfusion hpid
        · rw [hpeq, Option.some.injEq] at hpid
          exact ⟨p, List.mem_append_left _ hp, hpid, hpnone⟩

theorem goodImages_remove {images : List Image} {imageId : String}
    (hg : GoodImages images) : GoodImages (removeStep images imageId) := by
  obtain ⟨hnd, hne, href⟩ := hg
  have hsub : (removeStep images imageId).Sublist images :=
    (List.filter_sublist _).trans (List.filter_sublist _)
  refine ⟨List.Nodup.sublist (List.Sublist.map Image.id hsub) hnd, ?_, ?_⟩
  · intro i hi
    exact hne i (hsub.mem hi)
  · intro i hi pid hpid
    have hiim : i ∈ images := hsub.mem hi
    rcases href i hiim pid hpid with ⟨j, hj, hjid, hjnone⟩
    have hjid_ne : j.id ≠ imageId := by
      intro hje
      have hpar_i : i.parentImageId = some imageId := by
        rw [hpid, Option.some.injEq]
        exact hjid.symm.trans hje
      have hcond := (List.mem_filter.mp hi).2
      rw [hpar_i] at hcond
      simp at hcond
    refine ⟨j, ?_, hjid, hjnone⟩
    unfold removeStep
    refine List.mem_filter.mpr ⟨List.mem_filter.mpr ⟨hj, ?_⟩, ?_⟩
    · simp [hjid_ne]
    · simp [hjnone]

theorem goodImages_relate {images : List Image} {imageId parentId : String}
    (hg : GoodImages images) (hop : GoodOp images (.relate imageId parentId)) :
    GoodImages (relateStep images imageId parentId) := by
  obtain ⟨hnd, hne, href⟩ := hg
  have hop' : ∀ i ∈ images, i.parentImageId ≠ some imageId := hop
  unfold relateStep
  by_cases h1 : parentId = ""
  · rw [if_pos h1]; exact ⟨hnd, hne, href⟩
  rw [if_neg h1]
  rcases hfc : images.find? (fun img => img.id == imageId) with _ | c
  · rw [hfc]; exact ⟨hnd, hne, href⟩
  rw [hfc]
  rcases hfp : images.find? (fun img => img.id == parentId) with _ | q
  · rw [hfp]; exact ⟨hnd, hne, href⟩
  rw [hfp]
  show GoodImages (if imageId = parentId then images
    else if (!optFalsy q.parentImageId) = true then images
    else setParentFirst images imageId parentId)
  by_cases h2 : imageId = parentId
  · rw [if_pos h2]; exact ⟨hnd, hne, href⟩
  rw [if_neg h2]
  by_cases h3 : (!optFalsy q.parentImageId) = true
  · rw [if_pos h3]; exact ⟨hnd, hne, href⟩
  rw [if_neg h3]
  have hqmem : q ∈ images := List.mem_of_find?_eq_some hfp
  have hqid : q.id = parentId := by
    have := List.find?_some hfp
    rwa [beq_iff_eq] at this
  have hqfalsy : optFalsy q.parentImageId = true := by
    simpa using h3
  have hqnone : q.parentImageId = none := by
    cases hq : q.parentImageId with
    | none => rfl
    | some s =>
      rw [hq] at hqfalsy
      simp only [optFalsy, beq_iff_eq] at hqfalsy
      subst hqfalsy
      rcases href q hqmem "" hq with ⟨j, hj, hjid, _⟩
      exact absurd hjid (hne j hj)
  refine ⟨?_, ?_, ?_⟩
  · rw [setParentFirst_map_id]; exact hnd
  · intro i hi
    rcases mem_setParentFirst hi with h | ⟨c0, hc0, _, hix⟩
    · exact hne i h
    · rw [hix]; exact hne c0 hc0
  · intro i hi pid hpid
    rcases mem_setParentFirst hi with h | ⟨c0, hc0, hc0id, hix⟩
    · rcases href i h pid hpid with ⟨j, hj, hjid, hjnone⟩
      have hjne : j.id ≠ imageId := by
        intro hje
        have hpe : pid = imageId := hjid.symm.trans hje
        exact hop' i h (by rw [hpid, hpe])
      exact ⟨j, mem_setParentFirst_of_ne hj hjne, hjid, hjnone⟩
    · have hpid' : (some parentId : Option String) = some pid := by
        rw [hix] at hpid
        exact hpid
      have hpid2 : pid = parentId := (Option.some.injEq _ _ ▸ hpid').symm
      have hqne : q.id ≠ imageId := fun hqe => h2 (hqe.symm.trans hqid)
      exact ⟨q, mem_setParentFirst_of_ne hqmem hqne, hqid.trans hpid2.symm, hqnone⟩

theorem goodImages_step {images : List Image} {op : SessionOp}
    (hg : GoodImages images) (hop : GoodOp images op) : GoodImages (stepOp images op) := by
  cases op with
  | upload newId parentRaw => exact goodImages_upload hg hop
  | relate imageId parentId => exact goodImages_relate hg hop
  | updateImg imageId st an =>
    exact goodImages_congr (setAnalysisFirst_map_pair images imageId st an).symm hg
  | removeImg imageId => exact goodImages_remove hg

theorem goodImages_runOps : ∀ (ops : List SessionOp) (images : List Image),
    GoodImages images → GoodSeq images ops → GoodImages (runOps images ops) := by
  intro ops
  induction ops with
  | nil => intro images hg _; exact hg
  | cons op ops ih =>
    intro images hg hseq
    exact ih _ (goodImages_step hg hseq.1) hseq.2

/-- C5 amended: the depth ≤ 1 invariant (a child is never itself a parent,
no image references itself) holds in every session state reachable from the
empty session when every upload carries a fresh nonempty uuid and names no
parent or an existing primary, and relate is only applied to an image with
no children of its own; without those side conditions the public operations
can create depth-2 chains. -/
theorem parent_invariant_amended (ops : List SessionOp) (hseq : GoodSeq [] ops) :
    DepthLeOne (runOps [] ops) :=
  goodImages_depthLeOne (goodImages_runOps ops [] goodImages_nil hseq)

/-- C5 counterexample: three plain uploads (fresh distinct ids, all
accepted by the upload route, which never validates `parentImageId`) reach
a state where image "b" is both a child of "a" and the parent of "c", so
the invariant does not hold in every reachable state. -/
theorem parent_invariant_counterexample :
    ¬ DepthLeOne (runOps []
      [.upload "a" none, .upload "b" (some "a"), .upload "c" (some "b")]) := by
  intro h
  have hcb : ({ id := "c", parentImageId := some "b", analysisStatus := .pending, analysis := none } : Image) ∈ runOps [] [.upload "a" none, .upload "b" (some "a"), .upload "c" (some "b")] := by
    decide
  have hbb : ({ id := "b", parentImageId := some "a", analysisStatus := .pending, analysis := none } : Image) ∈ runOps [] [.upload "a" none, .upload "b" (some "a"), .upload "c" (some "b")] := by
    decide
  have := h.1 _ hcb _ hbb rfl
  exact Option.noConfusion this

/-- C5 witness: a concrete good sequence (one primary upload, one child
upload naming the primary) satisfies the invariant. -/
theorem parent_invariant_amended_witness :
    DepthLeOne (runOps [] [.upload "a" none, .upload "b" (some "a")]) :=
  parent_invariant_amended _ (by
    refine ⟨⟨by simp, by simp, Or.inl rfl⟩, ⟨by simp [stepOp, uploadStep, jsOrUndef], by simp, Or.inr ?_⟩, trivial⟩
    refine ⟨{ id := "a", parentImageId := none, analysisStatus := .pending, analysis := none }, by simp [stepOp, uploadStep, jsOrUndef, MAX_IMAGES_PER_SESSION], rfl, rfl⟩)
